import Mathlib

/-!
Shallow embedding of the signal-detection engine of the
`trading_yfinance_alert_dashboard` repository (files `swing_point.py`,
`fvg.py`, `strategy.py`), together with theorems settling the claims about
it.  Prices are modelled as rationals (the code only ever compares them);
candle access under an in-bounds guard is modelled with a default value.
-/

namespace TradingAlert

/-- A candle; only `high`, `low` and `close` are read by the engine. -/
structure Candle where
  high : ℚ
  low : ℚ
  close : ℚ
deriving DecidableEq

/-- Indexing into the candle list.  Every access in the source is guarded to
be in bounds, so a default value is never observable. -/
def getC (candles : List Candle) (i : Nat) : Candle :=
  candles.getD i ⟨0, 0, 0⟩

/-- The two swing-point kinds, `'SH'` and `'SL'` in the source. -/
inductive SPKind where
  | SH
  | SL
deriving DecidableEq

/-- A swing point `(index, type, value)` as produced by
`find_three_swing_points`. -/
structure SwingPoint where
  idx : Nat
  kind : SPKind
  value : ℚ
deriving DecidableEq

/-- `swing_point.identify_swing_high`: the candle at `index` is a swing high
when its high exceeds both neighbours' highs; boundary indices never
qualify. -/
def identify_swing_high (candles : List Candle) (index : Nat) : Bool :=
  if index < 1 ∨ index + 1 ≥ candles.length then false
  else
    decide ((getC candles index).high > (getC candles (index - 1)).high) &&
    decide ((getC candles index).high > (getC candles (index + 1)).high)

/-- `swing_point.identify_swing_low`: the candle at `index` is a swing low
when its low is below both neighbours' lows; boundary indices never
qualify. -/
def identify_swing_low (candles : List Candle) (index : Nat) : Bool :=
  if index < 1 ∨ index + 1 ≥ candles.length then false
  else
    decide ((getC candles index).low < (getC candles (index - 1)).low) &&
    decide ((getC candles index).low < (getC candles (index + 1)).low)

/-- The backward scan loop of `find_three_swing_points`: current index is
`i` (the recursion argument), `last` is `last_type`, `need` is how many more
points may still be accepted (the loop breaks once 3 are collected).  The
`elif` of the source makes the swing-low test unreachable whenever the
swing-high test succeeds. -/
def findSwingLoop (candles : List Candle) :
    Option SPKind → Nat → Nat → List SwingPoint
  | _, _, 0 => []
  | last, need, i + 1 =>
    if need = 0 then []
    else if identify_swing_high candles (i + 1) then
      if last ≠ some .SH then
        ⟨i + 1, .SH, (getC candles (i + 1)).high⟩ ::
          findSwingLoop candles (some .SH) (need - 1) i
      else findSwingLoop candles last need i
    else if identify_swing_low candles (i + 1) then
      if last ≠ some .SL then
        ⟨i + 1, .SL, (getC candles (i + 1)).low⟩ ::
          findSwingLoop candles (some .SL) (need - 1) i
      else findSwingLoop candles last need i
    else findSwingLoop candles last need i

/-- The same backward scan without the stop-after-3 bound; used to state
"fewer than 3 alternating points exist in range". -/
def scanSwings (candles : List Candle) : Option SPKind → Nat → List SwingPoint
  | _, 0 => []
  | last, i + 1 =>
    if identify_swing_high candles (i + 1) then
      if last ≠ some .SH then
        ⟨i + 1, .SH, (getC candles (i + 1)).high⟩ ::
          scanSwings candles (some .SH) i
      else scanSwings candles last i
    else if identify_swing_low candles (i + 1) then
      if last ≠ some .SL then
        ⟨i + 1, .SL, (getC candles (i + 1)).low⟩ ::
          scanSwings candles (some .SL) i
      else scanSwings candles last i
    else scanSwings candles last i

/-- `swing_point.find_three_swing_points`: scan backward from index
`len - 2` down to `1`, accepting alternating swing points, and return them
(most recent first) exactly when three were found. -/
def find_three_swing_points (candles : List Candle) :
    Option (List SwingPoint) :=
  let pts := findSwingLoop candles none 3 (candles.length - 2)
  if pts.length = 3 then some pts else none

example :
    identify_swing_high [⟨1, 0, 0⟩, ⟨2, 0, 0⟩, ⟨1, 0, 0⟩] 1 = true := by decide

example :
    identify_swing_high [⟨1, 0, 0⟩, ⟨2, 0, 0⟩, ⟨1, 0, 0⟩] 0 = false := by decide

example :
    identify_swing_low [⟨9, 5, 0⟩, ⟨9, 3, 0⟩, ⟨9, 5, 0⟩] 1 = true := by decide

/-- The two FVG polarities, the strings `'bullish'` / `'bearish'` in the
source. -/
inductive FvgType where
  | bullish
  | bearish
deriving DecidableEq

/-- A fair value gap as built by `find_fvgs_in_range`. -/
structure Gap where
  kind : FvgType
  top : ℚ
  bottom : ℚ
  start_idx : Nat
  end_idx : Nat
deriving DecidableEq

/-- One iteration of the loop body of `fvg.find_fvgs_in_range` at window
start `i`: the `i + 2 >= len(candles)` guard (a `break` in the source; once
it fires it fires for every later `i` as well, so skipping is equivalent),
the polarity test and the `top > bottom` safeguard. -/
def fvgAt (candles : List Candle) (fvg_type : FvgType) (i : Nat) :
    Option Gap :=
  if i + 2 ≥ candles.length then none
  else
    match fvg_type with
    | .bullish =>
      let first_high := (getC candles i).high
      let third_low := (getC candles (i + 2)).low
      if third_low > first_high then
        let fvg : Gap := ⟨.bullish, third_low, first_high, i, i + 2⟩
        if fvg.top > fvg.bottom then some fvg else none
      else none
    | .bearish =>
      let first_low := (getC candles i).low
      let third_high := (getC candles (i + 2)).high
      if first_low > third_high then
        let fvg : Gap := ⟨.bearish, first_low, third_high, i, i + 2⟩
        if fvg.top > fvg.bottom then some fvg else none
      else none

/-- `fvg.find_fvgs_in_range`: iterate `i` from `start_idx` to
`min(end_idx, len(candles) - 3)` inclusive and collect the gaps found. -/
def find_fvgs_in_range (candles : List Candle) (start_idx end_idx : Nat)
    (fvg_type : FvgType) : List Gap :=
  let search_end := min end_idx (candles.length - 3)
  (List.range' start_idx (search_end + 1 - start_idx)).filterMap
    (fvgAt candles fvg_type)

/-- Python's `max(fvgs, key)` / `min(fvgs, key)`: fold over the tail keeping
the current optimum, replacing it only on a strictly better key, so the
first optimum in scan order wins on ties. -/
def foldPick (strictlyBetter : Gap → Gap → Bool) (first : Gap)
    (rest : List Gap) : Gap :=
  rest.foldl (fun best g => if strictlyBetter g best then g else best) first

/-- `fvg.select_optimal_fvg`: `None` on the empty list, else the gap with
the highest bottom (bullish) or the lowest top (bearish). -/
def select_optimal_fvg (fvgs : List Gap) (fvg_type : FvgType) :
    Option Gap :=
  match fvgs with
  | [] => none
  | f :: rest =>
    match fvg_type with
    | .bullish => some (foldPick (fun g best => decide (g.bottom > best.bottom)) f rest)
    | .bearish => some (foldPick (fun g best => decide (g.top < best.top)) f rest)

/-- `strategy.check_candles_close_above`: some candle in
`[start_idx, end_idx]` (skipping out-of-range indices, a `break` in the
source) closes strictly above `threshold`. -/
def check_candles_close_above (candles : List Candle)
    (start_idx end_idx : Nat) (threshold : ℚ) : Bool :=
  (List.range' start_idx (end_idx + 1 - start_idx)).any fun i =>
    decide (i < candles.length) && decide ((getC candles i).close > threshold)

/-- `strategy.check_candles_close_below`, mirror of
`check_candles_close_above`. -/
def check_candles_close_below (candles : List Candle)
    (start_idx end_idx : Nat) (threshold : ℚ) : Bool :=
  (List.range' start_idx (end_idx + 1 - start_idx)).any fun i =>
    decide (i < candles.length) && decide ((getC candles i).close < threshold)

/-- The two trend labels, the strings `'bullish'` / `'bearish'`. -/
inductive Trend where
  | bullish
  | bearish
deriving DecidableEq

/-- `strategy.analyze_trend` with the source's unpacking of
`swing_points[0..2]` into `sp1` (most recent), `sp2` (middle), `sp3`
(oldest) lifted into parameters. -/
def analyze_trend (candles : List Candle) (sp1 sp2 sp3 : SwingPoint) :
    Option Trend :=
  if sp3.kind = .SH ∧ sp1.kind = .SH then
    if check_candles_close_above candles sp3.idx (candles.length - 1)
        sp3.value then some .bullish
    else if sp1.value > sp3.value then some .bullish
    else if check_candles_close_below candles sp2.idx (candles.length - 1)
        sp2.value then some .bearish
    else none
  else if sp3.kind = .SL ∧ sp1.kind = .SL then
    if check_candles_close_below candles sp3.idx (candles.length - 1)
        sp3.value then some .bearish
    else if sp1.value < sp3.value then some .bearish
    else if check_candles_close_above candles sp2.idx (candles.length - 1)
        sp2.value then some .bullish
    else none
  else none

/-- The entry-signal record returned by `check_entry_criteria`. -/
structure Signal where
  trend : Trend
  swing_points : List SwingPoint
  fvg : Gap
  target : ℚ
  stop_loss : ℚ
deriving DecidableEq

/-- `strategy.check_entry_criteria` with the gap finder abstracted out, to
make "no gap search is attempted" provable: the result in the reversal
branches is independent of `findG`. -/
def check_entry_criteria_with
    (findG : List Candle → Nat → Nat → FvgType → List Gap)
    (candles : List Candle) : Option Signal :=
  match find_three_swing_points candles with
  | none => none
  | some swing_points =>
    match swing_points with
    | sp1 :: sp2 :: sp3 :: _ =>
      match analyze_trend candles sp1 sp2 sp3 with
      | none => none
      | some trend =>
        if trend = .bullish ∧ sp3.kind = .SH ∧ sp1.kind = .SH then
          match select_optimal_fvg (findG candles sp2.idx sp1.idx .bullish)
              .bullish with
          | some fvg =>
            some ⟨trend, swing_points, fvg, sp1.value, sp2.value⟩
          | none => none
        else if trend = .bearish ∧ sp3.kind = .SL ∧ sp1.kind = .SL then
          match select_optimal_fvg (findG candles sp2.idx sp1.idx .bearish)
              .bearish with
          | some fvg =>
            some ⟨trend, swing_points, fvg, sp1.value, sp2.value⟩
          | none => none
        else none
    | _ => none

/-- `strategy.check_entry_criteria`: extractor, classifier, gap search
between the middle and most recent swing points, signal assembly. -/
def check_entry_criteria (candles : List Candle) : Option Signal :=
  check_entry_criteria_with find_fvgs_in_range candles

/-- Scenario B of the spec: 10 candles with swing highs at indices 1 and 8,
a swing low at index 3, and a single bullish gap in the window (5, 6, 7). -/
def demoB : List Candle :=
  [⟨105, 100, 102⟩,
   ⟨110, 101, 108⟩,
   ⟨104, 100, 101⟩,
   ⟨103, 98, 99⟩,
   ⟨106, 99, 105⟩,
   ⟨107, 103, 106⟩,
   ⟨109, 106, 108⟩,
   ⟨112, 111, 112⟩,
   ⟨120, 109, 119⟩,
   ⟨115, 110, 112⟩]

/-- The swing points the extractor finds on `demoB`. -/
def demoBPts : List SwingPoint :=
  [⟨8, .SH, 120⟩, ⟨3, .SL, 98⟩, ⟨1, .SH, 110⟩]

example : find_three_swing_points demoB = some demoBPts := by decide

example :
    find_fvgs_in_range demoB 3 8 .bullish =
      [⟨.bullish, 111, 107, 5, 7⟩] := by decide

example :
    check_entry_criteria demoB =
      some ⟨.bullish, demoBPts, ⟨.bullish, 111, 107, 5, 7⟩, 120, 98⟩ := by
  decide

/-!
## Claim C1: the trend classifier
-/

/-- Some candle from index `lo` through the last index closes strictly
above `v` (stated the way the spec words it, as an existential). -/
def ClosesAboveFrom (candles : List Candle) (lo : Nat) (v : ℚ) : Prop :=
  ∃ i, lo ≤ i ∧ i < candles.length ∧ (getC candles i).close > v

/-- Some candle from index `lo` through the last index closes strictly
below `v`. -/
def ClosesBelowFrom (candles : List Candle) (lo : Nat) (v : ℚ) : Prop :=
  ∃ i, lo ≤ i ∧ i < candles.length ∧ (getC candles i).close < v

instance (candles : List Candle) (lo : Nat) (v : ℚ) :
    Decidable (ClosesAboveFrom candles lo v) :=
  decidable_of_iff
    (((List.range candles.length).any fun i =>
        decide (lo ≤ i) && decide ((getC candles i).close > v)) = true) <| by
    simp only [List.any_eq_true, List.mem_range, Bool.and_eq_true,
      decide_eq_true_eq, ClosesAboveFrom]
    tauto

instance (candles : List Candle) (lo : Nat) (v : ℚ) :
    Decidable (ClosesBelowFrom candles lo v) :=
  decidable_of_iff
    (((List.range candles.length).any fun i =>
        decide (lo ≤ i) && decide ((getC candles i).close < v)) = true) <| by
    simp only [List.any_eq_true, List.mem_range, Bool.and_eq_true,
      decide_eq_true_eq, ClosesBelowFrom]
    tauto

/-- The loop of `check_candles_close_above`, run to the end of the list,
computes exactly the spec's existential. -/
theorem check_above_iff (c : List Candle) (s : Nat) (v : ℚ) :
    check_candles_close_above c s (c.length - 1) v = true ↔
      ClosesAboveFrom c s v := by
  unfold check_candles_close_above ClosesAboveFrom
  simp only [List.any_eq_true, List.mem_range'_1, Bool.and_eq_true,
    decide_eq_true_eq]
  constructor
  · rintro ⟨i, ⟨h1, _⟩, h3, h4⟩
    exact ⟨i, h1, h3, h4⟩
  · rintro ⟨i, h1, h2, h3⟩
    exact ⟨i, ⟨h1, by omega⟩, h2, h3⟩

/-- Mirror of `check_above_iff`. -/
theorem check_below_iff (c : List Candle) (s : Nat) (v : ℚ) :
    check_candles_close_below c s (c.length - 1) v = true ↔
      ClosesBelowFrom c s v := by
  unfold check_candles_close_below ClosesBelowFrom
  simp only [List.any_eq_true, List.mem_range'_1, Bool.and_eq_true,
    decide_eq_true_eq]
  constructor
  · rintro ⟨i, ⟨h1, _⟩, h3, h4⟩
    exact ⟨i, h1, h3, h4⟩
  · rintro ⟨i, h1, h2, h3⟩
    exact ⟨i, ⟨h1, by omega⟩, h2, h3⟩

/-- The spec's priority rules for the classifier, written from the spec's
words (break above the oldest swing high, else higher high, else break
below the middle swing low; mirrored for the Low→High→Low pattern; `none`
for any other kind combination). -/
def analyze_trend_per_spec (candles : List Candle) (sp1 sp2 sp3 : SwingPoint) :
    Option Trend :=
  if sp3.kind = .SH ∧ sp1.kind = .SH then
    if ClosesAboveFrom candles sp3.idx sp3.value then some .bullish
    else if sp1.value > sp3.value then some .bullish
    else if ClosesBelowFrom candles sp2.idx sp2.value then some .bearish
    else none
  else if sp3.kind = .SL ∧ sp1.kind = .SL then
    if ClosesBelowFrom candles sp3.idx sp3.value then some .bearish
    else if sp1.value < sp3.value then some .bearish
    else if ClosesAboveFrom candles sp2.idx sp2.value then some .bullish
    else none
  else none

/-- C1: for every candle sequence and every triple of swing points,
`analyze_trend` implements exactly the spec's priority rules: for a
High→…→High pattern, bullish on a close strictly above `sp3.value` from
`sp3.idx` on, else bullish when `sp1.value > sp3.value`, else bearish on a
close strictly below `sp2.value` from `sp2.idx` on, else no trend; the
mirrored rules for a Low→…→Low pattern; `none` for any other kind
combination. -/
theorem analyze_trend_meets_spec (candles : List Candle)
    (sp1 sp2 sp3 : SwingPoint) :
    analyze_trend candles sp1 sp2 sp3 =
      analyze_trend_per_spec candles sp1 sp2 sp3 := by
  unfold analyze_trend analyze_trend_per_spec
  by_cases hHH : sp3.kind = .SH ∧ sp1.kind = .SH
  · rw [if_pos hHH, if_pos hHH]
    by_cases hA3 : ClosesAboveFrom candles sp3.idx sp3.value
    · rw [if_pos ((check_above_iff candles sp3.idx sp3.value).2 hA3),
        if_pos hA3]
    · rw [if_neg ((check_above_iff candles sp3.idx sp3.value).not.2 hA3),
        if_neg hA3]
      by_cases hv : sp1.value > sp3.value
      · rw [if_pos hv, if_pos hv]
      · rw [if_neg hv, if_neg hv]
        by_cases hB2 : ClosesBelowFrom candles sp2.idx sp2.value
        · rw [if_pos ((check_below_iff candles sp2.idx sp2.value).2 hB2),
            if_pos hB2]
        · rw [if_neg ((check_below_iff candles sp2.idx sp2.value).not.2 hB2),
            if_neg hB2]
  · rw [if_neg hHH, if_neg hHH]
    by_cases hLL : sp3.kind = .SL ∧ sp1.kind = .SL
    · rw [if_pos hLL, if_pos hLL]
      by_cases hB3 : ClosesBelowFrom candles sp3.idx sp3.value
      · rw [if_pos ((check_below_iff candles sp3.idx sp3.value).2 hB3),
          if_pos hB3]
      · rw [if_neg ((check_below_iff candles sp3.idx sp3.value).not.2 hB3),
          if_neg hB3]
        by_cases hv : sp1.value < sp3.value
        · rw [if_pos hv, if_pos hv]
        · rw [if_neg hv, if_neg hv]
          by_cases hA2 : ClosesAboveFrom candles sp2.idx sp2.value
          · rw [if_pos ((check_above_iff candles sp2.idx sp2.value).2 hA2),
              if_pos hA2]
          · rw [if_neg ((check_above_iff candles sp2.idx sp2.value).not.2 hA2),
              if_neg hA2]
    · rw [if_neg hLL, if_neg hLL]

/-!
## Claim C2: the swing-point extractor
-/

/-- The swing-high test holds exactly on interior indices whose high tops
both neighbours' highs. -/
theorem identify_swing_high_iff (c : List Candle) (i : Nat) :
    identify_swing_high c i = true ↔
      1 ≤ i ∧ i + 1 < c.length ∧
        (getC c i).high > (getC c (i - 1)).high ∧
        (getC c i).high > (getC c (i + 1)).high := by
  unfold identify_swing_high
  split_ifs with h
  · simp only [Bool.false_eq_true, false_iff]
    rintro ⟨h1, h2, -⟩
    omega
  · push_neg at h
    simp only [Bool.and_eq_true, decide_eq_true_eq]
    constructor
    · rintro ⟨h1, h2⟩
      exact ⟨h.1, by omega, h1, h2⟩
    · rintro ⟨-, -, h1, h2⟩
      exact ⟨h1, h2⟩

/-- The swing-low test holds exactly on interior indices whose low
undercuts both neighbours' lows. -/
theorem identify_swing_low_iff (c : List Candle) (i : Nat) :
    identify_swing_low c i = true ↔
      1 ≤ i ∧ i + 1 < c.length ∧
        (getC c i).low < (getC c (i - 1)).low ∧
        (getC c i).low < (getC c (i + 1)).low := by
  unfold identify_swing_low
  split_ifs with h
  · simp only [Bool.false_eq_true, false_iff]
    rintro ⟨h1, h2, -⟩
    omega
  · push_neg at h
    simp only [Bool.and_eq_true, decide_eq_true_eq]
    constructor
    · rintro ⟨h1, h2⟩
      exact ⟨h.1, by omega, h1, h2⟩
    · rintro ⟨-, -, h1, h2⟩
      exact ⟨h1, h2⟩

/-- The bounded loop is the unbounded alternating scan cut after `need`
acceptances. -/
theorem findSwingLoop_eq_take (c : List Candle) :
    ∀ (i : Nat) (last : Option SPKind) (need : Nat),
      findSwingLoop c last need i = (scanSwings c last i).take need := by
  intro i
  induction i with
  | zero =>
    intro last need
    simp [findSwingLoop, scanSwings]
  | succ k ih =>
    intro last need
    match need with
    | 0 => simp [findSwingLoop]
    | m + 1 =>
      rw [findSwingLoop, scanSwings]
      have hm : ¬ (m + 1 = 0) := Nat.succ_ne_zero m
      rw [if_neg hm]
      by_cases h1 : identify_swing_high c (k + 1) = true
      · rw [if_pos h1, if_pos h1]
        by_cases h2 : last ≠ some SPKind.SH
        · rw [if_pos h2, if_pos h2, List.take_succ_cons]
          simp only [Nat.add_sub_cancel]
          rw [ih]
        · rw [if_neg h2, if_neg h2, ih]
      · rw [if_neg h1, if_neg h1]
        by_cases h3 : identify_swing_low c (k + 1) = true
        · rw [if_pos h3, if_pos h3]
          by_cases h4 : last ≠ some SPKind.SL
          · rw [if_pos h4, if_pos h4, List.take_succ_cons]
            simp only [Nat.add_sub_cancel]
            rw [ih]
          · rw [if_neg h4, if_neg h4, ih]
        · rw [if_neg h3, if_neg h3, ih]

/-- Structural invariants of the unbounded scan: every accepted point is an
interior extremum of the matching kind carrying the matching price, indices
strictly decrease, consecutive kinds differ, and the first accepted point's
kind differs from the incoming `last` marker. -/
theorem scanSwings_invariants (c : List Candle) :
    ∀ (i : Nat) (last : Option SPKind),
      (∀ p ∈ scanSwings c last i, 1 ≤ p.idx ∧ p.idx ≤ i ∧
          ((p.kind = .SH ∧ identify_swing_high c p.idx = true ∧
              p.value = (getC c p.idx).high) ∨
           (p.kind = .SL ∧ identify_swing_low c p.idx = true ∧
              p.value = (getC c p.idx).low))) ∧
      List.Chain' (fun a b => b.idx < a.idx ∧ b.kind ≠ a.kind)
        (scanSwings c last i) ∧
      (∀ p l', scanSwings c last i = p :: l' → some p.kind ≠ last) := by
  intro i
  induction i with
  | zero =>
    intro last
    refine ⟨?_, ?_, ?_⟩ <;> simp [scanSwings]
  | succ k ih =>
    intro last
    have weaken : (∀ p ∈ scanSwings c last k, 1 ≤ p.idx ∧ p.idx ≤ k ∧
        ((p.kind = .SH ∧ identify_swing_high c p.idx = true ∧
            p.value = (getC c p.idx).high) ∨
         (p.kind = .SL ∧ identify_swing_low c p.idx = true ∧
            p.value = (getC c p.idx).low))) →
        ∀ p ∈ scanSwings c last k, 1 ≤ p.idx ∧ p.idx ≤ k + 1 ∧
        ((p.kind = .SH ∧ identify_swing_high c p.idx = true ∧
            p.value = (getC c p.idx).high) ∨
         (p.kind = .SL ∧ identify_swing_low c p.idx = true ∧
            p.value = (getC c p.idx).low)) := by
      intro hm p hp
      obtain ⟨a, b, d⟩ := hm p hp
      exact ⟨a, by omega, d⟩
    rw [scanSwings]
    by_cases h1 : identify_swing_high c (k + 1) = true
    · rw [if_pos h1]
      by_cases h2 : last ≠ some SPKind.SH
      · rw [if_pos h2]
        obtain ⟨ihm, ihc, ihh⟩ := ih (some .SH)
        refine ⟨?_, ?_, ?_⟩
        · intro p hp
          rw [List.mem_cons] at hp
          rcases hp with rfl | hp
          · exact ⟨Nat.succ_le_succ (Nat.zero_le k), le_refl _,
              Or.inl ⟨rfl, h1, rfl⟩⟩
          · obtain ⟨a, b, d⟩ := ihm p hp
            exact ⟨a, by omega, d⟩
        · rw [List.chain'_cons']
          refine ⟨?_, ihc⟩
          intro q hq
          have hl := List.eq_cons_of_mem_head? hq
          have hmem : q ∈ scanSwings c (some SPKind.SH) k :=
            List.mem_of_mem_head? hq
          obtain ⟨-, hle, -⟩ := ihm q hmem
          have hk := ihh q _ hl
          refine ⟨?_, fun hcontra => hk (by rw [hcontra])⟩
          show q.idx < k + 1
          omega
        · intro p l' hp
          have hpe : (⟨k + 1, .SH, (getC c (k + 1)).high⟩ : SwingPoint) = p := by
            injection hp
          rw [← hpe]
          exact fun hcontra => h2 hcontra.symm
      · rw [if_neg h2]
        obtain ⟨ihm, ihc, ihh⟩ := ih last
        exact ⟨weaken ihm, ihc, ihh⟩
    · rw [if_neg h1]
      by_cases h3 : identify_swing_low c (k + 1) = true
      · rw [if_pos h3]
        by_cases h4 : last ≠ some SPKind.SL
        · rw [if_pos h4]
          obtain ⟨ihm, ihc, ihh⟩ := ih (some .SL)
          refine ⟨?_, ?_, ?_⟩
          · intro p hp
            rw [List.mem_cons] at hp
            rcases hp with rfl | hp
            · exact ⟨Nat.succ_le_succ (Nat.zero_le k), le_refl _,
                Or.inr ⟨rfl, h3, rfl⟩⟩
            · obtain ⟨a, b, d⟩ := ihm p hp
              exact ⟨a, by omega, d⟩
          · rw [List.chain'_cons']
            refine ⟨?_, ihc⟩
            intro q hq
            have hl := List.eq_cons_of_mem_head? hq
            have hmem : q ∈ scanSwings c (some SPKind.SL) k :=
              List.mem_of_mem_head? hq
            obtain ⟨-, hle, -⟩ := ihm q hmem
            have hk := ihh q _ hl
            refine ⟨?_, fun hcontra => hk (by rw [hcontra])⟩
            show q.idx < k + 1
            omega
          · intro p l' hp
            have hpe : (⟨k + 1, .SL, (getC c (k + 1)).low⟩ : SwingPoint) = p := by
              injection hp
            rw [← hpe]
            exact fun hcontra => h4 hcontra.symm
        · rw [if_neg h4]
          obtain ⟨ihm, ihc, ihh⟩ := ih last
          exact ⟨weaken ihm, ihc, ihh⟩
      · rw [if_neg h3]
        obtain ⟨ihm, ihc, ihh⟩ := ih last
        exact ⟨weaken ihm, ihc, ihh⟩

/-- C2: the extractor classifies interior indices by the strict
neighbour-comparison rules (boundary indices never qualify), accepts only
kind-alternating extrema in the backward scan, stops after 3 acceptances
(its output is the 3-point prefix of the unbounded alternating scan),
returns `none` exactly when that scan accepts fewer than 3 points, and
every `some` result has exactly 3 points in most-recent-first order with
strictly decreasing indices in `[1, len-2]` and consecutive kinds
differing. -/
theorem find_three_swing_points_spec (c : List Candle) :
    (∀ i, identify_swing_high c i = true ↔
        1 ≤ i ∧ i + 1 < c.length ∧
          (getC c i).high > (getC c (i - 1)).high ∧
          (getC c i).high > (getC c (i + 1)).high) ∧
    (∀ i, identify_swing_low c i = true ↔
        1 ≤ i ∧ i + 1 < c.length ∧
          (getC c i).low < (getC c (i - 1)).low ∧
          (getC c i).low < (getC c (i + 1)).low) ∧
    (find_three_swing_points c = none ↔
      (scanSwings c none (c.length - 2)).length < 3) ∧
    (∀ l, find_three_swing_points c = some l →
      l = (scanSwings c none (c.length - 2)).take 3 ∧
      l.length = 3 ∧
      l.Chain' (fun a b => b.idx < a.idx ∧ b.kind ≠ a.kind) ∧
      ∀ p ∈ l, 1 ≤ p.idx ∧ p.idx ≤ c.length - 2 ∧
        ((p.kind = .SH ∧ identify_swing_high c p.idx = true ∧
            p.value = (getC c p.idx).high) ∨
         (p.kind = .SL ∧ identify_swing_low c p.idx = true ∧
            p.value = (getC c p.idx).low))) := by
  have hsl := findSwingLoop_eq_take c (c.length - 2) none 3
  refine ⟨identify_swing_high_iff c, identify_swing_low_iff c, ?_, ?_⟩
  · unfold find_three_swing_points
    rw [hsl]
    by_cases h : ((scanSwings c none (c.length - 2)).take 3).length = 3
    · rw [if_pos h]
      simp only [List.length_take] at h
      constructor
      · intro hc
        exact Option.noConfusion hc
      · intro hlen
        omega
    · rw [if_neg h]
      simp only [List.length_take] at h
      exact ⟨fun _ => by omega, fun _ => rfl⟩
  · intro l hl
    unfold find_three_swing_points at hl
    rw [hsl] at hl
    by_cases h : ((scanSwings c none (c.length - 2)).take 3).length = 3
    · rw [if_pos h] at hl
      injection hl with hl
      subst hl
      obtain ⟨hm, hc, -⟩ := scanSwings_invariants c (c.length - 2) none
      refine ⟨rfl, h, hc.take 3, ?_⟩
      intro p hp
      have hmem : p ∈ scanSwings c none (c.length - 2) :=
        List.mem_of_mem_take hp
      obtain ⟨h1, h2, h3⟩ := hm p hmem
      exact ⟨h1, h2, h3⟩
    · rw [if_neg h] at hl
      exact Option.noConfusion hl

/-- Witness for C2: the spec instantiated on the scenario-B candles,
with the `some`-result hypothesis discharged by computation. -/
theorem find_three_swing_points_spec_witness :
    demoBPts = (scanSwings demoB none (demoB.length - 2)).take 3 ∧
    demoBPts.length = 3 ∧
    demoBPts.Chain' (fun a b => b.idx < a.idx ∧ b.kind ≠ a.kind) ∧
    ∀ p ∈ demoBPts, 1 ≤ p.idx ∧ p.idx ≤ demoB.length - 2 ∧
      ((p.kind = .SH ∧ identify_swing_high demoB p.idx = true ∧
          p.value = (getC demoB p.idx).high) ∨
       (p.kind = .SL ∧ identify_swing_low demoB p.idx = true ∧
          p.value = (getC demoB p.idx).low)) :=
  (find_three_swing_points_spec demoB).2.2.2 demoBPts (by decide)

/-!
## Claim C9: outside bars are classified as swing highs only
-/

/-- C9: at an index that qualifies both as a swing high and as a swing low
(an outside bar), the scan loop behaves exactly as for a pure swing high —
after a previously accepted swing high the candle is skipped entirely
(never accepted as the alternating swing low), and otherwise it is accepted
as a swing high carrying the high price. -/
theorem outside_bar_high_only (c : List Candle) (i : Nat)
    (last : Option SPKind) (need : Nat) :
    identify_swing_high c (i + 1) = true →
    identify_swing_low c (i + 1) = true →
    need ≠ 0 →
    (last = some .SH →
      findSwingLoop c last need (i + 1) = findSwingLoop c last need i) ∧
    (last ≠ some .SH →
      findSwingLoop c last need (i + 1) =
        ⟨i + 1, .SH, (getC c (i + 1)).high⟩ ::
          findSwingLoop c (some .SH) (need - 1) i) := by
  intro hH hL hneed
  rw [findSwingLoop, if_neg hneed, if_pos hH]
  constructor
  · intro hlast
    rw [if_neg (not_not_intro hlast)]
  · intro hlast
    rw [if_pos hlast]

/-- A three-candle list whose middle candle is an outside bar: its high
tops both neighbours and its low undercuts both neighbours. -/
def demoOutside : List Candle := [⟨5, 5, 5⟩, ⟨10, 1, 4⟩, ⟨5, 5, 5⟩]

/-- Witness for C9 at the concrete outside bar, for both values of the
`last` marker. -/
theorem outside_bar_high_only_witness :
    (findSwingLoop demoOutside (some .SH) 3 1 =
        findSwingLoop demoOutside (some .SH) 3 0) ∧
    (findSwingLoop demoOutside none 3 1 =
        ⟨1, .SH, (getC demoOutside 1).high⟩ ::
          findSwingLoop demoOutside (some .SH) 2 0) :=
  ⟨(outside_bar_high_only demoOutside 0 (some .SH) 3 (by decide) (by decide)
      (by decide)).1 rfl,
   (outside_bar_high_only demoOutside 0 none 3 (by decide) (by decide)
      (by decide)).2 (by decide)⟩

/-!
## Claims C3 and C10: the gap locator
-/

/-- The loop body emits a bullish gap exactly on an in-bounds window whose
third low strictly exceeds its first high; the emitted gap is determined by
those two candles alone. -/
theorem fvgAt_bullish_eq_some (c : List Candle) (i : Nat) (g : Gap) :
    fvgAt c .bullish i = some g ↔
      i + 2 < c.length ∧ (getC c (i + 2)).low > (getC c i).high ∧
        g = ⟨.bullish, (getC c (i + 2)).low, (getC c i).high, i, i + 2⟩ := by
  simp only [fvgAt]
  split_ifs with h1 h2
  · simp only [false_iff, not_and]
    intro hlen
    omega
  · simp only [Option.some.injEq]
    constructor
    · intro hc
      exact ⟨by omega, h2, hc.symm⟩
    · rintro ⟨-, -, rfl⟩
      rfl
  · simp only [false_iff, not_and]
    intro _ hgt _
    exact h2 hgt

/-- Mirror of `fvgAt_bullish_eq_some` for bearish gaps. -/
theorem fvgAt_bearish_eq_some (c : List Candle) (i : Nat) (g : Gap) :
    fvgAt c .bearish i = some g ↔
      i + 2 < c.length ∧ (getC c i).low > (getC c (i + 2)).high ∧
        g = ⟨.bearish, (getC c i).low, (getC c (i + 2)).high, i, i + 2⟩ := by
  simp only [fvgAt]
  split_ifs with h1 h2
  · simp only [false_iff, not_and]
    intro hlen
    omega
  · simp only [Option.some.injEq]
    constructor
    · intro hc
      exact ⟨by omega, h2, hc.symm⟩
    · rintro ⟨-, -, rfl⟩
      rfl
  · simp only [false_iff, not_and]
    intro _ hgt _
    exact h2 hgt

/-- Whatever the polarity, an emitted gap records its window start. -/
theorem fvgAt_start (c : List Candle) (t : FvgType) (i : Nat) (g : Gap)
    (h : fvgAt c t i = some g) : g.start_idx = i := by
  cases t
  · obtain ⟨-, -, rfl⟩ := (fvgAt_bullish_eq_some c i g).1 h
    rfl
  · obtain ⟨-, -, rfl⟩ := (fvgAt_bearish_eq_some c i g).1 h
    rfl

/-- Membership in the bullish gap search, characterised by the spec's
window condition. -/
theorem mem_find_fvgs_bullish (c : List Candle) (s e : Nat) (g : Gap) :
    g ∈ find_fvgs_in_range c s e .bullish ↔
      ∃ i, s ≤ i ∧ i ≤ e ∧ i + 3 ≤ c.length ∧
        (getC c (i + 2)).low > (getC c i).high ∧
        g = ⟨.bullish, (getC c (i + 2)).low, (getC c i).high, i, i + 2⟩ := by
  unfold find_fvgs_in_range
  simp only [List.mem_filterMap, List.mem_range'_1]
  constructor
  · rintro ⟨i, ⟨hsi, hlt⟩, hf⟩
    rw [fvgAt_bullish_eq_some] at hf
    obtain ⟨hlen, hgt, rfl⟩ := hf
    exact ⟨i, hsi, by omega, by omega, hgt, rfl⟩
  · rintro ⟨i, hsi, hie, hlen, hgt, rfl⟩
    refine ⟨i, ⟨hsi, by omega⟩, ?_⟩
    rw [fvgAt_bullish_eq_some]
    exact ⟨by omega, hgt, rfl⟩

/-- Membership in the bearish gap search, characterised by the spec's
window condition. -/
theorem mem_find_fvgs_bearish (c : List Candle) (s e : Nat) (g : Gap) :
    g ∈ find_fvgs_in_range c s e .bearish ↔
      ∃ i, s ≤ i ∧ i ≤ e ∧ i + 3 ≤ c.length ∧
        (getC c i).low > (getC c (i + 2)).high ∧
        g = ⟨.bearish, (getC c i).low, (getC c (i + 2)).high, i, i + 2⟩ := by
  unfold find_fvgs_in_range
  simp only [List.mem_filterMap, List.mem_range'_1]
  constructor
  · rintro ⟨i, ⟨hsi, hlt⟩, hf⟩
    rw [fvgAt_bearish_eq_some] at hf
    obtain ⟨hlen, hgt, rfl⟩ := hf
    exact ⟨i, hsi, by omega, by omega, hgt, rfl⟩
  · rintro ⟨i, hsi, hie, hlen, hgt, rfl⟩
    refine ⟨i, ⟨hsi, by omega⟩, ?_⟩
    rw [fvgAt_bearish_eq_some]
    exact ⟨by omega, hgt, rfl⟩

/-- The gap list is sorted by strictly increasing window start. -/
theorem find_fvgs_pairwise (c : List Candle) (s e : Nat) (t : FvgType) :
    List.Pairwise (fun a b => a.start_idx < b.start_idx)
      (find_fvgs_in_range c s e t) := by
  unfold find_fvgs_in_range
  refine List.Pairwise.filterMap (fvgAt c t) ?_
    (List.pairwise_lt_range' s (min e (c.length - 3) + 1 - s))
  intro a b hab x hx y hy
  rw [fvgAt_start c t a x hx, fvgAt_start c t b y hy]
  exact hab

/-- In a start-sorted gap list, at most one gap carries any given window
start. -/
theorem filter_start_len_le_one (j : Nat) : ∀ (l : List Gap),
    List.Pairwise (fun a b => a.start_idx < b.start_idx) l →
    (l.filter fun g => decide (g.start_idx = j)).length ≤ 1 := by
  intro l h
  have hp : List.Pairwise (fun a b => a.start_idx < b.start_idx)
      (l.filter fun g => decide (g.start_idx = j)) :=
    h.filter _
  cases hf : l.filter (fun g => decide (g.start_idx = j)) with
  | nil => simp
  | cons x xs =>
    cases xs with
    | nil => simp
    | cons y ys =>
      rw [hf] at hp
      have hxy := (List.pairwise_cons.1 hp).1 y (List.mem_cons_self _ _)
      have hx : x ∈ l.filter fun g => decide (g.start_idx = j) := by
        rw [hf]
        exact List.mem_cons_self _ _
      have hy : y ∈ l.filter fun g => decide (g.start_idx = j) := by
        rw [hf]
        exact List.mem_cons_of_mem _ (List.mem_cons_self _ _)
      have hxj := List.of_mem_filter hx
      have hyj := List.of_mem_filter hy
      simp only [decide_eq_true_eq] at hxj hyj
      omega

/-- Overwriting any candle other than position `i` leaves position `i`'s
candle unchanged. -/
theorem getC_set_ne (c : List Candle) (j : Nat) (v : Candle) (i : Nat)
    (h : j ≠ i) : getC (c.set j v) i = getC c i := by
  unfold getC
  rw [List.getD_eq_getElem?_getD, List.getD_eq_getElem?_getD,
    List.getElem?_set_ne h]

/-- Overwriting the middle candle of a window never affects whether that
window's gap is found, nor the gap produced: detection reads only the first
and third candle. -/
theorem find_fvgs_set_middle (c : List Candle) (s e : Nat) (t : FvgType)
    (g : Gap) (v : Candle) :
    g ∈ find_fvgs_in_range (c.set (g.start_idx + 1) v) s e t ↔
      g ∈ find_fvgs_in_range c s e t := by
  cases t
  · rw [mem_find_fvgs_bullish, mem_find_fvgs_bullish]
    constructor
    · rintro ⟨i, h1, h2, h3, h4, h5⟩
      have hgi : g.start_idx = i := by rw [h5]
      subst hgi
      rw [List.length_set] at h3
      rw [getC_set_ne c _ v _ (by omega),
        getC_set_ne c _ v _ (by omega)] at h4 h5
      exact ⟨g.start_idx, h1, h2, h3, h4, h5⟩
    · rintro ⟨i, h1, h2, h3, h4, h5⟩
      have hgi : g.start_idx = i := by rw [h5]
      subst hgi
      refine ⟨g.start_idx, h1, h2, ?_, ?_, ?_⟩
      · rw [List.length_set]
        exact h3
      · rw [getC_set_ne c _ v _ (by omega), getC_set_ne c _ v _ (by omega)]
        exact h4
      · rw [getC_set_ne c _ v _ (by omega), getC_set_ne c _ v _ (by omega)]
        exact h5
  · rw [mem_find_fvgs_bearish, mem_find_fvgs_bearish]
    constructor
    · rintro ⟨i, h1, h2, h3, h4, h5⟩
      have hgi : g.start_idx = i := by rw [h5]
      subst hgi
      rw [List.length_set] at h3
      rw [getC_set_ne c _ v _ (by omega),
        getC_set_ne c _ v _ (by omega)] at h4 h5
      exact ⟨g.start_idx, h1, h2, h3, h4, h5⟩
    · rintro ⟨i, h1, h2, h3, h4, h5⟩
      have hgi : g.start_idx = i := by rw [h5]
      subst hgi
      refine ⟨g.start_idx, h1, h2, ?_, ?_, ?_⟩
      · rw [List.length_set]
        exact h3
      · rw [getC_set_ne c _ v _ (by omega), getC_set_ne c _ v _ (by omega)]
        exact h4
      · rw [getC_set_ne c _ v _ (by omega), getC_set_ne c _ v _ (by omega)]
        exact h5

/-- C3: the gap search returns exactly one gap per qualifying window — a
gap is in the result iff some `i` in `[start_idx, end_idx]` with the whole
window in bounds satisfies the polarity condition (bullish:
`low[i+2] > high[i]`, top/bottom the third low / first high; bearish:
`high[i+2] < low[i]`, top/bottom the first low / third high) and the gap is
the one built from that window; at most one result gap per window start;
every result gap has `top > bottom` strictly and `end_idx = start_idx + 2`;
out-of-range windows are skipped (the `i + 3 ≤ len` bound) and the middle
candle never affects detection. -/
theorem find_fvgs_in_range_spec (c : List Candle) (s e : Nat) :
    (∀ g, g ∈ find_fvgs_in_range c s e .bullish ↔
        ∃ i, s ≤ i ∧ i ≤ e ∧ i + 3 ≤ c.length ∧
          (getC c (i + 2)).low > (getC c i).high ∧
          g = ⟨.bullish, (getC c (i + 2)).low, (getC c i).high, i, i + 2⟩) ∧
    (∀ g, g ∈ find_fvgs_in_range c s e .bearish ↔
        ∃ i, s ≤ i ∧ i ≤ e ∧ i + 3 ≤ c.length ∧
          (getC c i).low > (getC c (i + 2)).high ∧
          g = ⟨.bearish, (getC c i).low, (getC c (i + 2)).high, i, i + 2⟩) ∧
    (∀ t g, g ∈ find_fvgs_in_range c s e t →
        g.top > g.bottom ∧ g.end_idx = g.start_idx + 2) ∧
    (∀ t j, ((find_fvgs_in_range c s e t).filter
        fun g => decide (g.start_idx = j)).length ≤ 1) ∧
    (∀ t g (v : Candle),
        g ∈ find_fvgs_in_range (c.set (g.start_idx + 1) v) s e t ↔
          g ∈ find_fvgs_in_range c s e t) := by
  refine ⟨mem_find_fvgs_bullish c s e, mem_find_fvgs_bearish c s e,
    ?_, ?_, ?_⟩
  · intro t g hg
    cases t
    · obtain ⟨i, -, -, -, hgt, rfl⟩ := (mem_find_fvgs_bullish c s e g).1 hg
      exact ⟨hgt, rfl⟩
    · obtain ⟨i, -, -, -, hgt, rfl⟩ := (mem_find_fvgs_bearish c s e g).1 hg
      exact ⟨hgt, rfl⟩
  · intro t j
    exact filter_start_len_le_one j _ (find_fvgs_pairwise c s e t)
  · intro t g v
    exact find_fvgs_set_middle c s e t g v

/-- Witness for C3: the gap-validity component evaluated on the scenario-B
gap, with the membership hypothesis discharged by computation. -/
theorem find_fvgs_in_range_spec_witness :
    (⟨.bullish, 111, 107, 5, 7⟩ : Gap).top >
        (⟨.bullish, 111, 107, 5, 7⟩ : Gap).bottom ∧
      (⟨.bullish, 111, 107, 5, 7⟩ : Gap).end_idx =
        (⟨.bullish, 111, 107, 5, 7⟩ : Gap).start_idx + 2 :=
  (find_fvgs_in_range_spec demoB 3 8).2.2.1 .bullish _ (by decide)

/-- C10: the gap list is ordered by strictly increasing `start_idx` (scan
order), and every `start_idx` lies in
`[start_idx argument, min (end_idx argument) (len - 3)]`. -/
theorem find_fvgs_ordered (c : List Candle) (s e : Nat) (t : FvgType) :
    List.Pairwise (fun a b => a.start_idx < b.start_idx)
      (find_fvgs_in_range c s e t) ∧
    ∀ g ∈ find_fvgs_in_range c s e t,
      s ≤ g.start_idx ∧ g.start_idx ≤ min e (c.length - 3) := by
  refine ⟨find_fvgs_pairwise c s e t, ?_⟩
  intro g hg
  cases t
  · obtain ⟨i, h1, h2, h3, -, rfl⟩ := (mem_find_fvgs_bullish c s e g).1 hg
    refine ⟨h1, ?_⟩
    show i ≤ min e (c.length - 3)
    omega
  · obtain ⟨i, h1, h2, h3, -, rfl⟩ := (mem_find_fvgs_bearish c s e g).1 hg
    refine ⟨h1, ?_⟩
    show i ≤ min e (c.length - 3)
    omega

/-- Witness for C10: the bounds component on the scenario-B gap list. -/
theorem find_fvgs_ordered_witness :
    3 ≤ (⟨.bullish, 111, 107, 5, 7⟩ : Gap).start_idx ∧
      (⟨.bullish, 111, 107, 5, 7⟩ : Gap).start_idx ≤
        min 8 (demoB.length - 3) :=
  (find_fvgs_ordered demoB 3 8 .bullish).2 _ (by decide)

/-!
## Claim C4: gap selection
-/

/-- One fold step of the selection. -/
theorem foldPick_cons (B : Gap → Gap → Bool) (f g : Gap) (rest : List Gap) :
    foldPick B f (g :: rest) = foldPick B (if B g f then g else f) rest := rfl

/-- `g` is the first gap of `l` attaining the maximal bottom: nothing in
`l` has a larger bottom, and everything strictly before `g` has a strictly
smaller bottom. -/
def FirstMaxBottom (l : List Gap) (g : Gap) : Prop :=
  (∀ x ∈ l, x.bottom ≤ g.bottom) ∧
  ∃ pre suf, l = pre ++ g :: suf ∧ ∀ x ∈ pre, x.bottom < g.bottom

/-- `g` is the first gap of `l` attaining the minimal top. -/
def FirstMinTop (l : List Gap) (g : Gap) : Prop :=
  (∀ x ∈ l, g.top ≤ x.top) ∧
  ∃ pre suf, l = pre ++ g :: suf ∧ ∀ x ∈ pre, g.top < x.top

/-- The fold with strict-improvement replacement returns the first maximum
(by bottom) of `f :: rest`, exactly Python's `max(..., key=...)`. -/
theorem foldPick_max_bottom : ∀ (rest : List Gap) (f : Gap),
    FirstMaxBottom (f :: rest)
      (foldPick (fun g best => decide (g.bottom > best.bottom)) f rest) := by
  intro rest
  induction rest with
  | nil =>
    intro f
    refine ⟨?_, [], [], rfl, ?_⟩
    · intro x hx
      rw [List.mem_cons] at hx
      rcases hx with rfl | hx
      · exact le_refl _
      · simp at hx
    · intro x hx
      simp at hx
  | cons g rest' ih =>
    intro f
    rw [foldPick_cons]
    by_cases hgf : g.bottom > f.bottom
    · have hf' :
          (if (fun g best => decide (g.bottom > best.bottom)) g f then g
            else f) = g := by
        simp [hgf]
      rw [hf']
      obtain ⟨ihb, pre, suf, hdec, hpre⟩ := ih g
      have hr := ihb g (List.mem_cons_self _ _)
      refine ⟨?_, f :: pre, suf, ?_, ?_⟩
      · intro x hx
        rw [List.mem_cons] at hx
        rcases hx with rfl | hx
        · exact le_trans (le_of_lt hgf) hr
        · exact ihb x hx
      · rw [List.cons_append, hdec]
      · intro x hx
        rw [List.mem_cons] at hx
        rcases hx with rfl | hx
        · exact lt_of_lt_of_le hgf hr
        · exact hpre x hx
    · have hf' :
          (if (fun g best => decide (g.bottom > best.bottom)) g f then g
            else f) = f := by
        simp [hgf]
      rw [hf']
      obtain ⟨ihb, pre, suf, hdec, hpre⟩ := ih f
      have hgle : g.bottom ≤ f.bottom := not_lt.1 hgf
      have hfr := ihb f (List.mem_cons_self _ _)
      refine ⟨?_, ?_⟩
      · intro x hx
        rw [List.mem_cons] at hx
        rcases hx with rfl | hx
        · exact hfr
        · rw [List.mem_cons] at hx
          rcases hx with rfl | hx
          · exact le_trans hgle hfr
          · exact ihb x (List.mem_cons_of_mem _ hx)
      · cases pre with
        | nil =>
          rw [List.nil_append] at hdec
          injection hdec with hdec1 hdec2
          refine ⟨[], g :: rest', ?_, ?_⟩
          · rw [List.nil_append, ← hdec1]
          · intro x hx
            simp at hx
        | cons p pre'' =>
          rw [List.cons_append] at hdec
          injection hdec with hdec1 hdec2
          subst hdec1
          refine ⟨f :: g :: pre'', suf, ?_, ?_⟩
          · rw [List.cons_append, List.cons_append, ← hdec2]
          · intro x hx
            have hfpre : f.bottom <
                (foldPick (fun g best => decide (g.bottom > best.bottom))
                  f rest').bottom :=
              hpre f (List.mem_cons_self _ _)
            rw [List.mem_cons] at hx
            rcases hx with rfl | hx
            · exact hfpre
            · rw [List.mem_cons] at hx
              rcases hx with rfl | hx
              · exact lt_of_le_of_lt hgle hfpre
              · exact hpre x (List.mem_cons_of_mem _ hx)

/-- Mirror of `foldPick_max_bottom`: the first minimum by top. -/
theorem foldPick_min_top : ∀ (rest : List Gap) (f : Gap),
    FirstMinTop (f :: rest)
      (foldPick (fun g best => decide (g.top < best.top)) f rest) := by
  intro rest
  induction rest with
  | nil =>
    intro f
    refine ⟨?_, [], [], rfl, ?_⟩
    · intro x hx
      rw [List.mem_cons] at hx
      rcases hx with rfl | hx
      · exact le_refl _
      · simp at hx
    · intro x hx
      simp at hx
  | cons g rest' ih =>
    intro f
    rw [foldPick_cons]
    by_cases hgf : g.top < f.top
    · have hf' :
          (if (fun g best => decide (g.top < best.top)) g f then g
            else f) = g := by
        simp [hgf]
      rw [hf']
      obtain ⟨ihb, pre, suf, hdec, hpre⟩ := ih g
      have hr := ihb g (List.mem_cons_self _ _)
      refine ⟨?_, f :: pre, suf, ?_, ?_⟩
      · intro x hx
        rw [List.mem_cons] at hx
        rcases hx with rfl | hx
        · exact le_trans hr (le_of_lt hgf)
        · exact ihb x hx
      · rw [List.cons_append, hdec]
      · intro x hx
        rw [List.mem_cons] at hx
        rcases hx with rfl | hx
        · exact lt_of_le_of_lt hr hgf
        · exact hpre x hx
    · have hf' :
          (if (fun g best => decide (g.top < best.top)) g f then g
            else f) = f := by
        simp [hgf]
      rw [hf']
      obtain ⟨ihb, pre, suf, hdec, hpre⟩ := ih f
      have hgle : f.top ≤ g.top := not_lt.1 hgf
      have hfr := ihb f (List.mem_cons_self _ _)
      refine ⟨?_, ?_⟩
      · intro x hx
        rw [List.mem_cons] at hx
        rcases hx with rfl | hx
        · exact hfr
        · rw [List.mem_cons] at hx
          rcases hx with rfl | hx
          · exact le_trans hfr hgle
          · exact ihb x (List.mem_cons_of_mem _ hx)
      · cases pre with
        | nil =>
          rw [List.nil_append] at hdec
          injection hdec with hdec1 hdec2
          refine ⟨[], g :: rest', ?_, ?_⟩
          · rw [List.nil_append, ← hdec1]
          · intro x hx
            simp at hx
        | cons p pre'' =>
          rw [List.cons_append] at hdec
          injection hdec with hdec1 hdec2
          subst hdec1
          refine ⟨f :: g :: pre'', suf, ?_, ?_⟩
          · rw [List.cons_append, List.cons_append, ← hdec2]
          · intro x hx
            have hfpre : (foldPick (fun g best => decide (g.top < best.top))
                  f rest').top < f.top :=
              hpre f (List.mem_cons_self _ _)
            rw [List.mem_cons] at hx
            rcases hx with rfl | hx
            · exact hfpre
            · rw [List.mem_cons] at hx
              rcases hx with rfl | hx
              · exact lt_of_lt_of_le hfpre hgle
              · exact hpre x (List.mem_cons_of_mem _ hx)

/-- The selected gap is always an element of its input list. -/
theorem select_optimal_fvg_mem (l : List Gap) (t : FvgType) (g : Gap)
    (h : select_optimal_fvg l t = some g) : g ∈ l := by
  cases l with
  | nil => exact Option.noConfusion h
  | cons f rest =>
    cases t
    · injection h with h
      obtain ⟨-, pre, suf, hdec, -⟩ := foldPick_max_bottom rest f
      rw [hdec, ← h]
      exact List.mem_append_right _ (List.mem_cons_self _ _)
    · injection h with h
      obtain ⟨-, pre, suf, hdec, -⟩ := foldPick_min_top rest f
      rw [hdec, ← h]
      exact List.mem_append_right _ (List.mem_cons_self _ _)

/-- Bullish selection returns the first maximal-bottom gap. -/
theorem select_bullish_firstmax (l : List Gap) (g : Gap)
    (h : select_optimal_fvg l .bullish = some g) : FirstMaxBottom l g := by
  cases l with
  | nil => exact Option.noConfusion h
  | cons f rest =>
    injection h with h
    rw [← h]
    exact foldPick_max_bottom rest f

/-- Bearish selection returns the first minimal-top gap. -/
theorem select_bearish_firstmin (l : List Gap) (g : Gap)
    (h : select_optimal_fvg l .bearish = some g) : FirstMinTop l g := by
  cases l with
  | nil => exact Option.noConfusion h
  | cons f rest =>
    injection h with h
    rw [← h]
    exact foldPick_min_top rest f

/-- C4: selection returns `none` exactly on the empty list; on a non-empty
list it returns, for bullish polarity, the gap with the maximal bottom and
on ties the one occurring first in scan order (hence, over a
`find_fvgs_in_range` result, the tied gap with the smallest `start_idx`);
mirrored with minimal top for bearish; re-selecting from the selected gap
gives the same gap back (deterministic, idempotent selection). -/
theorem select_optimal_fvg_spec :
    (∀ t, select_optimal_fvg [] t = none) ∧
    (∀ (l : List Gap) t, l ≠ [] → (select_optimal_fvg l t).isSome = true) ∧
    (∀ (l : List Gap) g, select_optimal_fvg l .bullish = some g →
        FirstMaxBottom l g) ∧
    (∀ (l : List Gap) g, select_optimal_fvg l .bearish = some g →
        FirstMinTop l g) ∧
    (∀ (l : List Gap) t g, select_optimal_fvg l t = some g →
        select_optimal_fvg [g] t = some g) ∧
    (∀ (c : List Candle) (s e : Nat) t g g',
        select_optimal_fvg (find_fvgs_in_range c s e t) t = some g →
        g' ∈ find_fvgs_in_range c s e t →
        (t = .bullish → g'.bottom = g.bottom → g.start_idx ≤ g'.start_idx) ∧
        (t = .bearish → g'.top = g.top → g.start_idx ≤ g'.start_idx)) := by
  refine ⟨?_, ?_, select_bullish_firstmax, select_bearish_firstmin, ?_, ?_⟩
  · intro t
    cases t <;> rfl
  · intro l t hl
    cases l with
    | nil => exact absurd rfl hl
    | cons f rest => cases t <;> rfl
  · intro l t g h
    cases t <;> rfl
  · intro c s e t g g' hsel hmem
    have hpw := find_fvgs_pairwise c s e t
    constructor
    · rintro rfl heq
      obtain ⟨-, pre, suf, hdec, hpre⟩ := select_bullish_firstmax _ g hsel
      rw [hdec] at hmem
      rw [List.mem_append] at hmem
      rcases hmem with hmem | hmem
      · exact absurd heq (ne_of_lt (hpre g' hmem))
      · rw [List.mem_cons] at hmem
        rcases hmem with rfl | hmem
        · exact le_refl _
        · rw [hdec] at hpw
          have hsub := List.Pairwise.sublist
            (List.sublist_append_right pre (g :: suf)) hpw
          exact le_of_lt ((List.pairwise_cons.1 hsub).1 g' hmem)
    · rintro rfl heq
      obtain ⟨-, pre, suf, hdec, hpre⟩ := select_bearish_firstmin _ g hsel
      rw [hdec] at hmem
      rw [List.mem_append] at hmem
      rcases hmem with hmem | hmem
      · exact absurd heq.symm (ne_of_lt (hpre g' hmem))
      · rw [List.mem_cons] at hmem
        rcases hmem with rfl | hmem
        · exact le_refl _
        · rw [hdec] at hpw
          have hsub := List.Pairwise.sublist
            (List.sublist_append_right pre (g :: suf)) hpw
          exact le_of_lt ((List.pairwise_cons.1 hsub).1 g' hmem)

/-- Witness for C4: a two-gap list with tied bottoms — the earlier gap is
selected and certified as the first maximum. -/
theorem select_optimal_fvg_spec_witness :
    FirstMaxBottom
      [⟨.bullish, 10, 5, 0, 2⟩, ⟨.bullish, 12, 5, 1, 3⟩]
      ⟨.bullish, 10, 5, 0, 2⟩ :=
  select_optimal_fvg_spec.2.2.1
    [⟨.bullish, 10, 5, 0, 2⟩, ⟨.bullish, 12, 5, 1, 3⟩]
    ⟨.bullish, 10, 5, 0, 2⟩ (by decide)

/-!
## Claim C5: assembled-signal invariants
-/

/-- C5: every emitted signal stores `target = swing_points[0].value` and
`stop_loss = swing_points[1].value` exactly as found (never reordered, even
when the middle value exceeds the most recent one), and its gap starts
within `[sp2.idx, sp1.idx]`. -/
theorem signal_invariants (candles : List Candle) (sig : Signal)
    (h : check_entry_criteria candles = some sig) :
    ∃ sp1 sp2 sp3, sig.swing_points = [sp1, sp2, sp3] ∧
      sig.target = sp1.value ∧ sig.stop_loss = sp2.value ∧
      sp2.idx ≤ sig.fvg.start_idx ∧ sig.fvg.start_idx ≤ sp1.idx := by
  unfold check_entry_criteria check_entry_criteria_with at h
  cases hf : find_three_swing_points candles with
  | none =>
    rw [hf] at h
    exact Option.noConfusion h
  | some pts =>
    rw [hf] at h
    have hlen : pts.length = 3 := by
      unfold find_three_swing_points at hf
      by_cases hl :
          (findSwingLoop candles none 3 (candles.length - 2)).length = 3
      · rw [if_pos hl] at hf
        injection hf with hf
        rw [← hf]
        exact hl
      · rw [if_neg hl] at hf
        exact Option.noConfusion hf
    obtain ⟨a, b, d, rfl⟩ := List.length_eq_three.1 hlen
    dsimp only at h
    cases ht : analyze_trend candles a b d with
    | none =>
      rw [ht] at h
      exact Option.noConfusion h
    | some trend =>
      rw [ht] at h
      dsimp only at h
      by_cases hb1 :
          trend = Trend.bullish ∧ d.kind = SPKind.SH ∧ a.kind = SPKind.SH
      · rw [if_pos hb1] at h
        cases hsel : select_optimal_fvg
            (find_fvgs_in_range candles b.idx a.idx .bullish) .bullish with
        | none =>
          rw [hsel] at h
          exact Option.noConfusion h
        | some fvg =>
          rw [hsel] at h
          injection h with h
          subst h
          refine ⟨a, b, d, rfl, rfl, rfl, ?_, ?_⟩
          · have hmem := select_optimal_fvg_mem _ _ _ hsel
            obtain ⟨i, h1, h2, -, -, rfl⟩ :=
              (mem_find_fvgs_bullish candles b.idx a.idx fvg).1 hmem
            exact h1
          · have hmem := select_optimal_fvg_mem _ _ _ hsel
            obtain ⟨i, h1, h2, -, -, rfl⟩ :=
              (mem_find_fvgs_bullish candles b.idx a.idx fvg).1 hmem
            exact h2
      · rw [if_neg hb1] at h
        by_cases hb2 :
            trend = Trend.bearish ∧ d.kind = SPKind.SL ∧ a.kind = SPKind.SL
        · rw [if_pos hb2] at h
          cases hsel : select_optimal_fvg
              (find_fvgs_in_range candles b.idx a.idx .bearish) .bearish with
          | none =>
            rw [hsel] at h
            exact Option.noConfusion h
          | some fvg =>
            rw [hsel] at h
            injection h with h
            subst h
            refine ⟨a, b, d, rfl, rfl, rfl, ?_, ?_⟩
            · have hmem := select_optimal_fvg_mem _ _ _ hsel
              obtain ⟨i, h1, h2, -, -, rfl⟩ :=
                (mem_find_fvgs_bearish candles b.idx a.idx fvg).1 hmem
              exact h1
            · have hmem := select_optimal_fvg_mem _ _ _ hsel
              obtain ⟨i, h1, h2, -, -, rfl⟩ :=
                (mem_find_fvgs_bearish candles b.idx a.idx fvg).1 hmem
              exact h2
        · rw [if_neg hb2] at h
          exact Option.noConfusion h

/-- Witness for C5: the scenario-B signal satisfies the invariants. -/
theorem signal_invariants_witness :
    ∃ sp1 sp2 sp3,
      (Signal.mk .bullish demoBPts ⟨.bullish, 111, 107, 5, 7⟩ 120
          98).swing_points = [sp1, sp2, sp3] ∧
      (Signal.mk .bullish demoBPts ⟨.bullish, 111, 107, 5, 7⟩ 120
          98).target = sp1.value ∧
      (Signal.mk .bullish demoBPts ⟨.bullish, 111, 107, 5, 7⟩ 120
          98).stop_loss = sp2.value ∧
      sp2.idx ≤ (Signal.mk .bullish demoBPts ⟨.bullish, 111, 107, 5, 7⟩ 120
          98).fvg.start_idx ∧
      (Signal.mk .bullish demoBPts ⟨.bullish, 111, 107, 5, 7⟩ 120
          98).fvg.start_idx ≤ sp1.idx :=
  signal_invariants demoB _ (by decide)

/-!
## Claim C6: reversal classifications produce no signal and no gap search
-/

/-- C6: when the swing pattern is High→Low→High but the classifier returns
bearish (the reversal case), the engine emits no signal — and no gap search
is attempted: the outcome is `none` for every gap finder `findG`;
symmetrically for a Low→High→Low pattern classified bullish. -/
theorem reversal_no_signal
    (findG : List Candle → Nat → Nat → FvgType → List Gap)
    (candles : List Candle) (sp1 sp2 sp3 : SwingPoint)
    (rest : List SwingPoint)
    (hf : find_three_swing_points candles =
      some (sp1 :: sp2 :: sp3 :: rest)) :
    (sp3.kind = .SH → sp1.kind = .SH →
      analyze_trend candles sp1 sp2 sp3 = some .bearish →
      check_entry_criteria_with findG candles = none) ∧
    (sp3.kind = .SL → sp1.kind = .SL →
      analyze_trend candles sp1 sp2 sp3 = some .bullish →
      check_entry_criteria_with findG candles = none) := by
  constructor
  · intro h3 h1 ht
    unfold check_entry_criteria_with
    rw [hf]
    dsimp only
    rw [ht]
    dsimp only
    rw [if_neg, if_neg]
    · rw [h3]
      rintro ⟨-, hcontra, -⟩
      exact SPKind.noConfusion hcontra
    · rintro ⟨hcontra, -, -⟩
      exact Trend.noConfusion hcontra
  · intro h3 h1 ht
    unfold check_entry_criteria_with
    rw [hf]
    dsimp only
    rw [ht]
    dsimp only
    rw [if_neg, if_neg]
    · rintro ⟨hcontra, -, -⟩
      exact Trend.noConfusion hcontra
    · rw [h3]
      rintro ⟨-, hcontra, -⟩
      exact SPKind.noConfusion hcontra

/-- Ten candles whose swing pattern is High→Low→High
(`[(8, SH, 110), (5, SL, 80), (1, SH, 120)]`) yet whose classification is
bearish: no close above 120, `110 < 120`, and the last close 70 breaks
below the middle swing low 80. -/
def demoD : List Candle :=
  [⟨100, 90, 95⟩,
   ⟨120, 95, 99⟩,
   ⟨105, 92, 93⟩,
   ⟨104, 85, 90⟩,
   ⟨103, 82, 88⟩,
   ⟨102, 80, 85⟩,
   ⟨101, 84, 90⟩,
   ⟨103, 86, 92⟩,
   ⟨110, 87, 95⟩,
   ⟨105, 70, 70⟩]

example : find_three_swing_points demoD =
    some [⟨8, .SH, 110⟩, ⟨5, .SL, 80⟩, ⟨1, .SH, 120⟩] := by decide

example : analyze_trend demoD ⟨8, .SH, 110⟩ ⟨5, .SL, 80⟩ ⟨1, .SH, 120⟩ =
    some .bearish := by decide

/-- Witness for C6: the reversal scenario on `demoD` yields no signal. -/
theorem reversal_no_signal_witness : check_entry_criteria demoD = none :=
  (reversal_no_signal find_fvgs_in_range demoD ⟨8, .SH, 110⟩ ⟨5, .SL, 80⟩
      ⟨1, .SH, 120⟩ [] (by decide)).1 rfl rfl (by decide)

/-!
## Claim C7: no input validation at the call boundary
-/

/-- Scenario B with the first candle inverted (`high < low`): malformed
input that the engine nevertheless processes to a full signal. -/
def demoBBad : List Candle :=
  [⟨100, 106, 102⟩,
   ⟨110, 101, 108⟩,
   ⟨104, 100, 101⟩,
   ⟨103, 98, 99⟩,
   ⟨106, 99, 105⟩,
   ⟨107, 103, 106⟩,
   ⟨109, 106, 108⟩,
   ⟨112, 111, 112⟩,
   ⟨120, 109, 119⟩,
   ⟨115, 110, 112⟩]

/-- C7 counterexample: there is no distinct `InvalidInput` outcome.  A
malformed input with an inverted candle (`high < low`) silently yields a
full signal; a malformed two-candle input yields the plain `none` that a
well-formed pattern-less input also yields. -/
theorem no_invalid_input_outcome :
    (getC demoBBad 0).high < (getC demoBBad 0).low ∧
    check_entry_criteria demoBBad =
      some ⟨.bullish, demoBPts, ⟨.bullish, 111, 107, 5, 7⟩, 120, 98⟩ ∧
    (getC [⟨5, 1, 2⟩, ⟨1, 9, 3⟩] 1).high < (getC [⟨5, 1, 2⟩, ⟨1, 9, 3⟩] 1).low ∧
    check_entry_criteria [⟨5, 1, 2⟩, ⟨1, 9, 3⟩] = none ∧
    check_entry_criteria
      [⟨5, 1, 2⟩, ⟨5, 1, 2⟩, ⟨5, 1, 2⟩, ⟨5, 1, 2⟩] = none := by
  refine ⟨by decide, by decide, by decide, by decide, by decide⟩

/-- C7 (amended): the engine performs no input validation and is a total
function; in particular any sequence with fewer than 3 candles flows
through the ordinary path to the ordinary `none` (the extractor finds no
swing points), indistinguishable from the no-signal outcome. -/
theorem short_input_no_validation (candles : List Candle)
    (h : candles.length < 3) : check_entry_criteria candles = none := by
  have h2 : candles.length - 2 = 0 := by omega
  unfold check_entry_criteria check_entry_criteria_with
    find_three_swing_points
  rw [h2]
  simp [findSwingLoop]

/-- Witness for C7's amended theorem at a concrete one-candle input. -/
theorem short_input_no_validation_witness :
    check_entry_criteria [⟨2, 1, 1⟩] = none :=
  short_input_no_validation [⟨2, 1, 1⟩] (by decide)

/-!
## Claim C8: scenario B end to end
-/

/-- C8: a concrete 10-candle sequence with swing highs at index 1 (110) and
index 8 (120), a swing low at index 3 (98) and `high[5] = 107 < 111 =
low[7]`, on which the extractor returns
`[(8, SH, 120), (3, SL, 98), (1, SH, 110)]`, the classifier returns
bullish, the gap search over `[3, 8]` finds exactly the `(5, 7)` gap with
top 111 and bottom 107, and the engine assembles the signal with target
120, stop loss 98 and gap bottom 107. -/
theorem scenario_b_end_to_end :
    demoB.length = 10 ∧
    identify_swing_high demoB 1 = true ∧ (getC demoB 1).high = 110 ∧
    identify_swing_high demoB 8 = true ∧ (getC demoB 8).high = 120 ∧
    identify_swing_low demoB 3 = true ∧ (getC demoB 3).low = 98 ∧
    (getC demoB 5).high = 107 ∧ (getC demoB 7).low = 111 ∧
    (getC demoB 5).high < (getC demoB 7).low ∧
    find_three_swing_points demoB =
      some [⟨8, .SH, 120⟩, ⟨3, .SL, 98⟩, ⟨1, .SH, 110⟩] ∧
    analyze_trend demoB ⟨8, .SH, 120⟩ ⟨3, .SL, 98⟩ ⟨1, .SH, 110⟩ =
      some .bullish ∧
    find_fvgs_in_range demoB 3 8 .bullish = [⟨.bullish, 111, 107, 5, 7⟩] ∧
    check_entry_criteria demoB =
      some ⟨.bullish, demoBPts, ⟨.bullish, 111, 107, 5, 7⟩, 120, 98⟩ := by
  decide

end TradingAlert
